import Mathlib

/-!
Verification of the Pasta-Shapes bulk image downloader
(`tools/pasta-images-downloader/download_images.py`).

Shallow embedding conventions:
* Strings from the Python program are modelled as `List Char` (`Str`);
  `str` converts a Lean string literal to this representation.
* Paths are modelled relative to the process root `ROOT` (the directory of
  the script), so `ROOT / rel` is just `rel` and `path.relative_to(ROOT)`
  is the path itself.
* The filesystem is an association list from paths to entries; directories
  are implicit except where a non-file entry matters (`Entry.other`).
* The network is a deterministic oracle `Str → NetResult`; an injected
  disk-failure oracle says after how many chunk writes `f.write` raises.
-/

abbrev Str := List Char

/-- Convert a Lean string literal to the `List Char` model. -/
def str (s : String) : Str := s.toList

/-- Python `str.lower()` (ASCII case mapping, which is all the program needs). -/
def strLower (s : Str) : Str := s.map Char.toLower

/-- Characters stripped by Python `str.strip()`. -/
def isPySpace (c : Char) : Bool :=
  c == ' ' || c == '\t' || c == '\n' || c == '\r' || c == Char.ofNat 11 || c == Char.ofNat 12

/-- Python `str.strip()`: drop whitespace from both ends. -/
def strTrim (s : Str) : Str :=
  ((s.dropWhile isPySpace).reverse.dropWhile isPySpace).reverse

/-- Python `str.split(sep)` for a single-character separator: the list of
segments between occurrences of `c`; always non-empty. -/
def splitOnChar (c : Char) : Str → List Str
  | [] => [[]]
  | a :: rest =>
    let r := splitOnChar c rest
    if a = c then [] :: r
    else
      match r with
      | g :: gs => (a :: g) :: gs
      | [] => [[a]]

/-- Index of the last occurrence of `c` in `s` (Python `str.rfind`). -/
def rfindIdx (c : Char) : Str → Option Nat
  | [] => none
  | a :: rest =>
    match rfindIdx c rest with
    | some i => some (i + 1)
    | none => if a = c then some 0 else none

/-! ## URL parsing (the fragment of `urllib.parse.urlparse` the program uses)

`infer_ext_from_url` only looks at `urlparse(url).path`.  `urlsplit`
computes the path by removing, in order: the scheme (when the text before
the first `:` is a valid scheme), the netloc (when the rest starts with
`//`, up to the next `/`, `?` or `#`), the fragment (from the first `#`)
and the query (from the first `?`). -/

/-- Characters allowed in a URL scheme (`urllib.parse.scheme_chars`). -/
def isSchemeChar (c : Char) : Bool :=
  c.isAlpha || c.isDigit || c == '+' || c == '-' || c == '.'

/-- Remove the `scheme:` prefix when present, as `urlsplit` does. -/
def stripScheme (s : Str) : Str :=
  match s.findIdx? (· == ':') with
  | some i =>
    if 0 < i ∧ (s.take i).all isSchemeChar ∧ (s.headD ' ').isAlpha then
      s.drop (i + 1)
    else s
  | none => s

/-- Remove the `//netloc` part when present: the netloc extends to the next
`/`, `?` or `#`, which stays in the path. -/
def dropNetloc (s : Str) : Str :=
  match s with
  | '/' :: '/' :: rest => rest.dropWhile (fun c => !(c == '/' || c == '?' || c == '#'))
  | _ => s

/-- The `path` component of `urllib.parse.urlparse(url)`. -/
def urlparsePath (u : Str) : Str :=
  let s := dropNetloc (stripScheme u)
  (s.takeWhile (fun c => !(c == '#'))).takeWhile (fun c => !(c == '?'))

/-- `os.path.basename`: the part of a POSIX path after the last `/`. -/
def baseName (p : Str) : Str := (splitOnChar '/' p).getLastD []

/-! ## Process-wide constants of the script -/

/-- `MANIFEST = ROOT / "manifest.csv"`, as a root-relative path. -/
def MANIFEST : Str := str "manifest.csv"

/-- `OUT_UNCOOKED = ROOT / "uncooked"`, as a root-relative path. -/
def OUT_UNCOOKED : Str := str "uncooked"

/-- `OUT_COOKED = ROOT / "cooked"`, as a root-relative path. -/
def OUT_COOKED : Str := str "cooked"

/-- `ZIP_OUT = ROOT / "pasta-images.zip"`, as a root-relative path. -/
def ZIP_OUT : Str := str "pasta-images.zip"

/-- `TIMEOUT_S = 60` (seconds; the model has no real time, kept for fidelity). -/
def TIMEOUT_S : Nat := 60

/-- `USER_AGENT` header value sent on every request. -/
def USER_AGENT : Str := str "PastaShapesImageDownloader/1.0 (+https://homecharg.ing/)"

/-- `chunk_size=1024 * 256` passed to `iter_content`. -/
def CHUNK_SIZE : Nat := 1024 * 256

/-- `CONTENT_TYPE_EXT`: Content-Type header value to extension. -/
def CONTENT_TYPE_EXT : List (Str × Str) :=
  [(str "image/jpeg", str ".jpg"),
   (str "image/jpg", str ".jpg"),
   (str "image/png", str ".png"),
   (str "image/webp", str ".webp"),
   (str "image/gif", str ".gif"),
   (str "image/tiff", str ".tif"),
   (str "image/bmp", str ".bmp")]

/-! ## Extension inference -/

/-- `infer_ext_from_url`: best-effort extension inference from the URL path.
`base = os.path.basename(urlparse(url).path)`; if `base` contains a dot,
`ext = "." + base.split(".")[-1].lower()` is returned when it lies in the
whitelist, with `".jpeg"` normalised to `".jpg"`. -/
def infer_ext_from_url (url : Str) : Str :=
  let base := baseName (urlparsePath url)
  if base.contains '.' then
    let ext := '.' :: strLower ((splitOnChar '.' base).getLastD [])
    if ext ∈ [str ".jpg", str ".jpeg", str ".png", str ".webp",
              str ".gif", str ".tif", str ".tiff", str ".bmp"] then
      if ext = str ".jpeg" then str ".jpg" else ext
    else []
  else []

/-- `infer_ext_from_content_type`: `(content_type or "").split(";")[0].strip().lower()`
looked up in `CONTENT_TYPE_EXT`, defaulting to the empty string. -/
def infer_ext_from_content_type (ct : Str) : Str :=
  let c := strLower (strTrim ((splitOnChar ';' ct).headD []))
  (CONTENT_TYPE_EXT.lookup c).getD []

/-! ## `pathlib` fragment used by the script -/

/-- `PurePath.suffix`: the extension of the final component — `name[i:]`
where `i` is the index of the last dot, provided `0 < i < len(name) - 1`;
otherwise the empty string. -/
def pySuffix (p : Str) : Str :=
  let name := baseName p
  match rfindIdx '.' name with
  | some i => if 0 < i ∧ i < name.length - 1 then name.drop i else []
  | none => []

/-! ## Filesystem model

A flat association list from root-relative paths to entries.  Directories
are implicit (`mkdir` is a no-op) except that a non-file entry
(`Entry.other`) can appear in a listing, for `rglob`'s benefit.  A zip
archive written by the script is kept structured (`FileData.archive`) so
that rebuilding it from the same tree gives an equal value. -/

/-- Contents of a regular file: raw bytes, or a zip archive written by the
script (compression tag and the entries in walk order). -/
inductive FileData where
  | bytes (bs : List Nat)
  | archive (compression : Str) (entries : List (Str × FileData))
deriving Repr

/-- A directory entry: a regular file, or anything else (directory,
symlink, ...) with its reported `st_size`. -/
inductive Entry where
  | file (d : FileData)
  | other (size : Nat)
deriving Repr

instance : Inhabited FileData := ⟨.bytes []⟩

instance : Inhabited Entry := ⟨.other 0⟩

/-- `st_size` of a file.  A zip archive on disk is never empty (its
end-of-central-directory record alone is 22 bytes); the model reflects
only that its size is positive and grows with the entries. -/
def FileData.size : FileData → Nat
  | .bytes bs => bs.length
  | .archive _ es => 22 + es.length

/-- `st_size` of an entry. -/
def Entry.size : Entry → Nat
  | .file d => d.size
  | .other n => n

/-- The filesystem: a listing of paths with their entries. -/
abbrev FS := List (Str × Entry)

/-- Lookup a path (first match). -/
def FS.lookup : FS → Str → Option Entry
  | [], _ => none
  | (q, e) :: rest, p => if q = p then some e else FS.lookup rest p

/-- Remove every entry at a path (`unlink`, and the source of a rename). -/
def FS.erase (fs : FS) (p : Str) : FS := fs.filter (fun q => !(q.1 = p : Bool))

/-- Create or overwrite the entry at a path. -/
def FS.set (fs : FS) (p : Str) (e : Entry) : FS := (p, e) :: fs.erase p

/-- `os.replace src dst`: atomically move the entry at `src` to `dst`. -/
def FS.rename (fs : FS) (src dst : Str) : FS :=
  match fs.lookup src with
  | some e => (fs.erase src).set dst e
  | none => fs

/-! ## Network model -/

/-- One HTTP response: final (post-redirect) URL, status code, declared
Content-Type, and the streamed body as `iter_content` chunks. -/
structure Response where
  finalUrl : Str
  status : Nat
  contentType : Str
  chunks : List (List Nat)

/-- Result of `requests.get`: a response, or a network/timeout exception
carrying its message. -/
inductive NetResult where
  | fail (cause : Str)
  | resp (r : Response)

/-- The deterministic world the program runs against: the network oracle,
and a disk-failure oracle giving, per URL, after how many successful chunk
writes `f.write` raises (`none`: writes never fail). -/
structure World where
  net : Str → NetResult
  diskFailAfter : Str → Option Nat

/-! ## `download_one` -/

/-- The error message format of `download_one`'s `except` branch:
`f"ERROR {url} -> {out_path.relative_to(ROOT)}: {e}"`. -/
def errMsg (url dest cause : Str) : Str :=
  str "ERROR " ++ url ++ str " -> " ++ dest ++ str ": " ++ cause

/-- Result of `download_one`, with instrumentation: the filesystem after
the call, whether an HTTP request was issued, and the path renamed into
place on success. -/
structure DLResult where
  ok : Bool
  msg : Str
  fs : FS
  netCalled : Bool
  finalPath : Option Str
deriving Repr

/-- A job failed: the request was attempted but did not complete (the
`except` branch ran).  Skips have `netCalled = false`; successes have
`ok = true`. -/
def DLResult.isError (r : DLResult) : Bool := r.netCalled && !r.ok

/-- The skip test `out_path.exists() and out_path.stat().st_size > 0`. -/
def skipCheck (fs : FS) (p : Str) : Bool :=
  match fs.lookup p with
  | some e => decide (0 < e.size)
  | none => false

/-- The destination after extension inference: when the manifest path has
no suffix, `out_path.with_suffix(inferred)` — which, the suffix being
empty, appends `inferred` — with `inferred` the short-circuit `or` of the
two inference helpers. -/
def resolveExt (r : Response) (p : Str) : Str :=
  if pySuffix p = [] then
    let inferred :=
      if infer_ext_from_url r.finalUrl ≠ [] then infer_ext_from_url r.finalUrl
      else infer_ext_from_content_type r.contentType
    if inferred ≠ [] then p ++ inferred else p
  else p

/-- The body of the `try` block: issue the GET, check the status, infer the
extension, stream chunks to the `.part` sibling, then `os.replace` it onto
the final path.  Chunk writes (`f.write`) are the only filesystem
operations that can raise; `failAfter` says after how many writes one does. -/
def writeLoop (tmp : Str) (fs : FS) (acc : List Nat) :
    List (List Nat) → Option Nat → FS × Bool
  | [], _ => (fs, true)
  | c :: cs, failAfter =>
    if c.isEmpty then writeLoop tmp fs acc cs failAfter
    else
      match failAfter with
      | some 0 => (fs, false)
      | some (k + 1) => writeLoop tmp (fs.set tmp (.file (.bytes (acc ++ c)))) (acc ++ c) cs (some k)
      | none => writeLoop tmp (fs.set tmp (.file (.bytes (acc ++ c)))) (acc ++ c) cs none

/-- The non-skip path of `download_one`: everything inside the `try`,
with the `except` branch returning the `ERROR` message. -/
def attemptDownload (w : World) (url p : Str) (fs : FS) : DLResult :=
  match w.net url with
  | .fail cause => ⟨false, errMsg url p cause, fs, true, none⟩
  | .resp r =>
    if 400 ≤ r.status ∧ r.status < 600 then
      ⟨false, errMsg url p (str "HTTPError"), fs, true, none⟩
    else
      let out := resolveExt r p
      let tmp := out ++ str ".part"
      let res := writeLoop tmp (fs.set tmp (.file (.bytes []))) [] r.chunks (w.diskFailAfter url)
      if res.2 then
        ⟨true, str "OK " ++ out, res.1.rename tmp out, true, some out⟩
      else
        ⟨false, errMsg url out (str "write failed"), res.1, true, none⟩

/-- `download_one(url, out_path)`: skip when the destination exists with
non-zero size, otherwise attempt the download. -/
def download_one (w : World) (url p : Str) (fs : FS) : DLResult :=
  if skipCheck fs p then
    ⟨false, str "SKIP (exists) " ++ p, fs, false, none⟩
  else attemptDownload w url p fs

/-- The final destination of a job as a function of the world: `p` when the
request fails outright, otherwise the inference-resolved path. -/
def resolvedPath (w : World) (url p : Str) : Str :=
  match w.net url with
  | .fail _ => p
  | .resp r => resolveExt r p

/-- The full body of a response, as written on a complete download. -/
def fullBody (w : World) (url : Str) : List Nat :=
  match w.net url with
  | .fail _ => []
  | .resp r => r.chunks.flatten

/-! ## `build_zip` -/

/-- Whether `p` lies strictly under directory `dir` (a `rglob` hit). -/
def underDir (dir p : Str) : Bool := (dir ++ str "/").isPrefixOf p

/-- The regular files found by `folder.rglob("*")` filtered by `is_file`,
paired with their archive names `p.relative_to(ROOT)` (the path itself in
the root-relative model); listing order stands in for the walk order. -/
def fileEntriesUnder (fs : FS) (dir : Str) : List (Str × FileData) :=
  fs.filterMap (fun q =>
    match q with
    | (p, .file d) => if underDir dir p then some (p, d) else none
    | (_, .other _) => none)

/-- All entries the zip receives: the files under `uncooked` then under
`cooked`. -/
def zipEntries (fs : FS) : List (Str × FileData) :=
  fileEntriesUnder fs OUT_UNCOOKED ++ fileEntriesUnder fs OUT_COOKED

/-- The filesystem after `if zip_path.exists(): zip_path.unlink()` — the
state the archiver walks. -/
def zipBase (fs : FS) : FS :=
  if (fs.lookup ZIP_OUT).isSome then fs.erase ZIP_OUT else fs

/-- `build_zip(zip_path)` at `ZIP_OUT`: unlink an existing archive, then
write a fresh `ZIP_DEFLATED` archive of the two output trees. -/
def build_zip (fs : FS) : FS :=
  (zipBase fs).set ZIP_OUT (.file (.archive (str "ZIP_DEFLATED") (zipEntries (zipBase fs))))

/-! ## Manifest reading -/

/-- `ROOT / rel`: in the root-relative path model, the relative path
itself. -/
def rootJoin (rel : Str) : Str := rel

/-- The value a `csv.DictReader` row dict holds for a column name:
`dict(zip(fieldnames, row))[name]`, so the value paired with the last
occurrence of `name` in the header; `none` models the `KeyError` (or
`None`-padding) raised when the column is absent from the row. -/
def colValue : List Str → List Str → Str → Option Str
  | hdr, row, name => lookupLast (hdr.zip row) name
where
  lookupLast : List (Str × Str) → Str → Option Str
    | [], _ => none
    | (k, v) :: rest, n =>
      match lookupLast rest n with
      | some x => some x
      | none => if k = n then some v else none

/-- The manifest-reading loop of `main`: one job per data row, in row
order, `url` and `relative_output_path` both stripped, the destination
joined onto `ROOT`.  `none` models the uncaught exception on a row missing
either column. -/
def readManifest (hdr : List Str) : List (List Str) → Option (List (Str × Str))
  | [] => some []
  | row :: rest =>
    match colValue hdr row (str "url"), colValue hdr row (str "relative_output_path") with
    | some u, some r =>
      match readManifest hdr rest with
      | some js => some ((strTrim u, rootJoin (strTrim r)) :: js)
      | _ => none
    | _, _ => none

/-! ## Batch loop and `main` -/

/-- What the batch loop accumulates: the filesystem, the per-job messages
in job order, and the `downloaded` / `errors` counters; `netCalls` counts
issued HTTP requests. -/
structure BatchResult where
  fs : FS
  msgs : List Str
  downloaded : Nat
  errors : Nat
  netCalls : Nat
deriving Repr

/-- The `for idx, (url, out_path) in enumerate(jobs)` loop: run each job
against the filesystem left by the previous one; `errors` increments when
the message starts with `ERROR`, otherwise `downloaded` increments when
the job downloaded. -/
def runBatch (w : World) : List (Str × Str) → FS → BatchResult
  | [], fs => ⟨fs, [], 0, 0, 0⟩
  | (u, p) :: js, fs =>
    let r := download_one w u p fs
    let rest := runBatch w js r.fs
    ⟨rest.fs, r.msg :: rest.msgs,
     (if (str "ERROR").isPrefixOf r.msg then 0 else if r.ok then 1 else 0) + rest.downloaded,
     (if (str "ERROR").isPrefixOf r.msg then 1 else 0) + rest.errors,
     (if r.netCalled then 1 else 0) + rest.netCalls⟩

/-- The per-job results of the batch, with the filesystem threaded through
in job order (the same recursion as `runBatch`, keeping each `DLResult`). -/
def batchResults (w : World) : List (Str × Str) → FS → List DLResult
  | [], _ => []
  | (u, p) :: js, fs =>
    let r := download_one w u p fs
    r :: batchResults w js r.fs

/-- One whole run over an already-parsed job list: the batch, then the
archiver (which `main` always reaches once jobs start). -/
def runOnce (w : World) (jobs : List (Str × Str)) (fs : FS) : BatchResult :=
  let b := runBatch w jobs fs
  ⟨build_zip b.fs, b.msgs, b.downloaded, b.errors, b.netCalls⟩

/-- Observable outcome of `main`: exit code, final filesystem, messages,
counters, and whether the archiver ran. -/
structure MainOut where
  exitCode : Nat
  fs : FS
  msgs : List Str
  downloaded : Nat
  errors : Nat
  netCalls : Nat
  archived : Bool
deriving Repr

/-- `main()`: exit 2 when the manifest is absent (nothing attempted,
no archive); otherwise parse the manifest, run the batch, always build the
zip, and exit 1 exactly when a per-job error occurred.  The manifest input
is `none` when `manifest.csv` does not exist, otherwise the header row and
the data rows; a `none` result models the uncaught exception on a manifest
row missing a required column (the process dies without reaching the
batch's exit paths). -/
def mainRun (w : World) (manifest : Option (List Str × List (List Str))) (fs : FS) :
    Option MainOut :=
  match manifest with
  | none => some ⟨2, fs, [], 0, 0, 0, false⟩
  | some (hdr, rows) =>
    match readManifest hdr rows with
    | none => none
    | some jobs =>
      let b := runBatch w jobs fs
      let fs2 := build_zip b.fs
      some ⟨if b.errors = 0 then 0 else 1, fs2, b.msgs, b.downloaded, b.errors, b.netCalls, true⟩

/-! ## Spec-side definition for the extension-preference claim -/

/-- The extension choice as the spec words it (claim C5), written
independently of the helpers above: (a) the final URL's path suffix —
the last dot-segment of the basename, case-insensitively — when it lies in
the whitelist, with `.jpeg` normalised to `.jpg`; else (b) the response
Content-Type's media type mapped through the fixed table; else (c) no
extension. -/
def claimPreferredExt (finalUrl contentType : Str) : Str :=
  let parts := splitOnChar '.' (baseName (urlparsePath finalUrl))
  let urlSuffix := if 2 ≤ parts.length then '.' :: strLower (parts.getLastD []) else []
  if urlSuffix ∈ [str ".jpg", str ".jpeg", str ".png", str ".webp",
                  str ".gif", str ".tif", str ".tiff", str ".bmp"] then
    if urlSuffix = str ".jpeg" then str ".jpg" else urlSuffix
  else
    let mt := strLower (strTrim ((splitOnChar ';' contentType).headD []))
    if mt = str "image/jpeg" then str ".jpg"
    else if mt = str "image/jpg" then str ".jpg"
    else if mt = str "image/png" then str ".png"
    else if mt = str "image/webp" then str ".webp"
    else if mt = str "image/gif" then str ".gif"
    else if mt = str "image/tiff" then str ".tif"
    else if mt = str "image/bmp" then str ".bmp"
    else []

/-! ## Concrete fixtures used by witnesses and counterexamples -/

/-- A small deterministic network: an extensionless image URL served as
PNG in two chunks, a `.jpg` URL, a 404, and connection failures elsewhere. -/
def witNet : Str → NetResult := fun u =>
  if u = str "http://e/img" then
    .resp ⟨str "http://e/img", 200, str "image/png", [[7], [8]]⟩
  else if u = str "http://e/b.jpg" then
    .resp ⟨str "http://e/b.jpg", 200, str "image/jpeg", [[1]]⟩
  else if u = str "http://e/404" then
    .resp ⟨str "http://e/404", 404, str "text/html", []⟩
  else .fail (str "connection refused")

/-- Fixture world with reliable disk writes. -/
def witWorld : World := ⟨witNet, fun _ => none⟩

/-- Fixture world whose disk raises on the second chunk write of every
download. -/
def witFailWorld : World := ⟨witNet, fun _ => some 1⟩

/-- One extensionless job, for the idempotence counterexample. -/
def jobsC1 : List (Str × Str) := [(str "http://e/img", str "uncooked/shape1")]

/-- One job whose destination already carries its extension. -/
def jobsW : List (Str × Str) := [(str "http://e/b.jpg", str "uncooked/b.jpg")]

/-- A three-job batch whose middle job fails (404). -/
def jobs3 : List (Str × Str) :=
  [(str "http://e/b.jpg", str "uncooked/b.jpg"),
   (str "http://e/404", str "uncooked/c.png"),
   (str "http://e/img", str "cooked/d")]

/-- A small tree with a non-file entry and a file outside the two output
directories, for the archiver witness. -/
def fs8 : FS :=
  [(str "uncooked/a.png", .file (.bytes [1])),
   (str "uncooked/sub", .other 4096),
   (str "cooked/b.jpg", .file (.bytes [2])),
   (str "note.txt", .file (.bytes [3]))]

/-! # Theorems

First a layer of small lemmas about the filesystem model, then one theorem
(plus witness material) per claim. -/

/-! Sanity checks of the string-level embedding on concrete inputs. -/

example : splitOnChar '.' (str "a.b.c") = [str "a", str "b", str "c"] := by decide

example : splitOnChar '.' (str "abc") = [str "abc"] := by decide

example : splitOnChar '.' (str ".jpg") = [str "", str "jpg"] := by decide

example : rfindIdx '.' (str "a.b.c") = some 3 := by decide

example : rfindIdx '.' (str "abc") = none := by decide

example : strTrim (str "  x y\t") = str "x y" := by decide

example : strLower (str "JPeG") = str "jpeg" := by decide

example : urlparsePath (str "https://example.com/a/b.JPG?x=1#f") = str "/a/b.JPG" := by decide

example : urlparsePath (str "http://example.com") = str "" := by decide

example : urlparsePath (str "example.com/x.png") = str "example.com/x.png" := by decide

example : baseName (str "/a/b.JPG") = str "b.JPG" := by decide

example : baseName (str "uncooked/shape1") = str "shape1" := by decide

example : infer_ext_from_url (str "https://ex.com/a/B.JPeG?x=1") = str ".jpg" := by decide

example : infer_ext_from_url (str "https://ex.com/a/b.tiff") = str ".tiff" := by decide

example : infer_ext_from_url (str "https://ex.com/a/b.svg") = str "" := by decide

example : infer_ext_from_url (str "https://ex.com/img") = str "" := by decide

example : infer_ext_from_content_type (str "image/PNG; charset=x") = str ".png" := by decide

example : infer_ext_from_content_type (str "text/html") = str "" := by decide

example : pySuffix (str "uncooked/a.jpg") = str ".jpg" := by decide

example : pySuffix (str "uncooked/shape1") = str "" := by decide

example : pySuffix (str "uncooked/.bashrc") = str "" := by decide

example : pySuffix (str "uncooked/a.tar.gz") = str ".gz" := by decide

example : pySuffix (str "a.jpg/plain") = str "" := by decide

theorem lookup_set_self (fs : FS) (p : Str) (e : Entry) :
    (fs.set p e).lookup p = some e := by
  simp [FS.set, FS.lookup]

theorem lookup_erase_ne (fs : FS) (p q : Str) (h : q ≠ p) :
    (fs.erase p).lookup q = fs.lookup q := by
  induction fs with
  | nil => rfl
  | cons a rest ih =>
    obtain ⟨k, e⟩ := a
    by_cases hk : k = p
    · subst hk
      simpa [FS.erase, FS.lookup, Ne.symm h] using ih
    · by_cases hq : k = q
      · subst hq
        simp [FS.erase, FS.lookup, hk]
      · simpa [FS.erase, FS.lookup, hk, hq] using ih

theorem lookup_erase_self (fs : FS) (p : Str) :
    (fs.erase p).lookup p = none := by
  induction fs with
  | nil => rfl
  | cons a rest ih =>
    obtain ⟨k, e⟩ := a
    by_cases hk : k = p
    · simpa [FS.erase, hk] using ih
    · simpa [FS.erase, FS.lookup, hk] using ih

theorem lookup_set_ne (fs : FS) (p q : Str) (e : Entry) (h : q ≠ p) :
    (fs.set p e).lookup q = fs.lookup q := by
  simp [FS.set, FS.lookup, Ne.symm h, lookup_erase_ne fs p q h]

theorem erase_erase (fs : FS) (p : Str) :
    (fs.erase p).erase p = fs.erase p := by
  simp [FS.erase, List.filter_filter]

theorem lookup_eq_none_iff (fs : FS) (p : Str) :
    fs.lookup p = none ↔ ∀ x ∈ fs, x.1 ≠ p := by
  induction fs with
  | nil => simp [FS.lookup]
  | cons a rest ih =>
    obtain ⟨k, e⟩ := a
    by_cases hk : k = p
    · simp [FS.lookup, hk]
    · simp [FS.lookup, hk, ih]

theorem erase_of_lookup_none (fs : FS) (p : Str) (h : fs.lookup p = none) :
    fs.erase p = fs := by
  refine List.filter_eq_self.mpr ?_
  intro x hx
  simpa using (lookup_eq_none_iff fs p).mp h x hx

theorem erase_set_self (fs : FS) (p : Str) (e : Entry) :
    (fs.set p e).erase p = fs.erase p := by
  simp [FS.set, FS.erase, erase_erase]

theorem mem_erase_iff (fs : FS) (p : Str) (x : Str × Entry) :
    x ∈ fs.erase p ↔ x ∈ fs ∧ x.1 ≠ p := by
  simp [FS.erase, List.mem_filter]

theorem ne_append_part (p : Str) : p ≠ p ++ str ".part" := by
  intro h
  have hlen := congrArg List.length h
  simp [str] at hlen

theorem errMsg_starts_error (u d c : Str) :
    (str "ERROR").isPrefixOf (errMsg u d c) = true := rfl

theorem ok_msg_not_error (out : Str) :
    (str "ERROR").isPrefixOf (str "OK " ++ out) = false := rfl

theorem skip_msg_not_error (p : Str) :
    (str "ERROR").isPrefixOf (str "SKIP (exists) " ++ p) = false := rfl

theorem skip_msg_starts_skip (p : Str) :
    (str "SKIP").isPrefixOf (str "SKIP (exists) " ++ p) = true := rfl

theorem writeLoop_lookup_ne (tmp q : Str) (hq : q ≠ tmp) :
    ∀ (chunks : List (List Nat)) (fa : Option Nat) (fs : FS) (acc : List Nat),
      ((writeLoop tmp fs acc chunks fa).1).lookup q = fs.lookup q := by
  intro chunks
  induction chunks with
  | nil => intro fa fs acc; rfl
  | cons c cs ih =>
    intro fa fs acc
    by_cases hc : c.isEmpty
    · simp [writeLoop, hc, ih]
    · cases fa with
      | none => simp [writeLoop, hc, ih, lookup_set_ne _ _ _ _ hq]
      | some k =>
        cases k with
        | zero => simp [writeLoop, hc]
        | succ k => simp [writeLoop, hc, ih, lookup_set_ne _ _ _ _ hq]

theorem writeLoop_ok_content (tmp : Str) :
    ∀ (chunks : List (List Nat)) (fa : Option Nat) (fs : FS) (acc : List Nat),
      fs.lookup tmp = some (.file (.bytes acc)) →
      (writeLoop tmp fs acc chunks fa).2 = true →
      ((writeLoop tmp fs acc chunks fa).1).lookup tmp
        = some (.file (.bytes (acc ++ chunks.flatten))) := by
  intro chunks
  induction chunks with
  | nil =>
    intro fa fs acc h _
    simpa [writeLoop] using h
  | cons c cs ih =>
    intro fa fs acc h hok
    by_cases hc : c.isEmpty
    · have hce : c = [] := by simpa using hc
      subst hce
      simp only [writeLoop, hc, if_true] at hok ⊢
      simpa using ih fa fs acc h hok
    · cases fa with
      | none =>
        simp only [writeLoop, hc, if_false, Bool.false_eq_true, ite_false] at hok ⊢
        have := ih none (fs.set tmp (.file (.bytes (acc ++ c)))) (acc ++ c)
          (lookup_set_self fs tmp _) hok
        simpa [List.append_assoc] using this
      | some k =>
        cases k with
        | zero => simp [writeLoop, hc] at hok
        | succ k =>
          simp only [writeLoop, hc, if_false, Bool.false_eq_true, ite_false] at hok ⊢
          have := ih (some k) (fs.set tmp (.file (.bytes (acc ++ c)))) (acc ++ c)
            (lookup_set_self fs tmp _) hok
          simpa [List.append_assoc] using this

theorem rename_lookup_dst (fs : FS) (src dst : Str) (e : Entry)
    (h : fs.lookup src = some e) :
    (fs.rename src dst).lookup dst = some e := by
  simp [FS.rename, h, lookup_set_self]

theorem rename_lookup_ne (fs : FS) (src dst q : Str) (h1 : q ≠ src) (h2 : q ≠ dst) :
    (fs.rename src dst).lookup q = fs.lookup q := by
  unfold FS.rename
  cases hl : fs.lookup src with
  | none => rfl
  | some e => rw [lookup_set_ne _ _ _ _ h2, lookup_erase_ne _ _ _ h1]

theorem skipCheck_iff (fs : FS) (p : Str) :
    skipCheck fs p = true ↔ ∃ e, fs.lookup p = some e ∧ 0 < e.size := by
  unfold skipCheck
  cases h : fs.lookup p with
  | none => simp
  | some e => simp

theorem download_one_skip (w : World) (url p : Str) (fs : FS)
    (h : skipCheck fs p = true) :
    download_one w url p fs = ⟨false, str "SKIP (exists) " ++ p, fs, false, none⟩ := by
  simp [download_one, h]

theorem download_one_attempt (w : World) (url p : Str) (fs : FS)
    (h : skipCheck fs p = false) :
    download_one w url p fs = attemptDownload w url p fs := by
  simp [download_one, h]

theorem attempt_netCalled (w : World) (url p : Str) (fs : FS) :
    (attemptDownload w url p fs).netCalled = true := by
  unfold attemptDownload
  cases hnet : w.net url with
  | fail cause => rfl
  | resp r =>
    by_cases hst : 400 ≤ r.status ∧ r.status < 600
    · simp [hst]
    · simp only [hst, if_false]
      split
      · rfl
      · rfl

theorem download_one_netCalled (w : World) (url p : Str) (fs : FS) :
    (download_one w url p fs).netCalled = !(skipCheck fs p) := by
  by_cases hs : skipCheck fs p
  · simp [download_one_skip w url p fs hs, hs]
  · simp only [Bool.not_eq_true] at hs
    rw [download_one_attempt w url p fs hs, attempt_netCalled, hs]
    rfl

theorem resolvedPath_resp (w : World) (url p : Str) (r : Response)
    (h : w.net url = .resp r) : resolvedPath w url p = resolveExt r p := by
  simp [resolvedPath, h]

theorem download_one_msg_shape (w : World) (url p : Str) (fs : FS) :
    ((str "ERROR").isPrefixOf (download_one w url p fs).msg
      = (download_one w url p fs).isError)
    ∧ ((str "ERROR").isPrefixOf (download_one w url p fs).msg = true →
        ∃ d c, (download_one w url p fs).msg = errMsg url d c) := by
  by_cases hs : skipCheck fs p
  · rw [download_one_skip w url p fs hs]
    constructor
    · simp [DLResult.isError, skip_msg_not_error]
    · intro h
      rw [skip_msg_not_error] at h
      exact absurd h (by simp)
  · rw [download_one_attempt w url p fs (by simpa using hs)]
    unfold attemptDownload
    cases hnet : w.net url with
    | fail cause =>
      exact ⟨by simp [DLResult.isError, errMsg_starts_error], fun _ => ⟨p, cause, rfl⟩⟩
    | resp r =>
      by_cases hst : 400 ≤ r.status ∧ r.status < 600
      · simp only [hst, if_true]
        exact ⟨by simp [DLResult.isError, errMsg_starts_error],
               fun _ => ⟨p, str "HTTPError", rfl⟩⟩
      · simp only [hst, if_false]
        by_cases hwl : (writeLoop (resolveExt r p ++ str ".part")
            (fs.set (resolveExt r p ++ str ".part") (.file (.bytes []))) []
            r.chunks (w.diskFailAfter url)).2
        · simp only [hwl, if_true]
          constructor
          · simp [DLResult.isError, ok_msg_not_error]
          · intro h
            rw [ok_msg_not_error] at h
            exact absurd h (by simp)
        · simp only [hwl, if_false]
          exact ⟨by simp [DLResult.isError, errMsg_starts_error],
                 fun _ => ⟨resolveExt r p, str "write failed", rfl⟩⟩

theorem download_one_fs_spec (w : World) (url p : Str) (fs : FS) :
    (∀ q, q ≠ resolvedPath w url p → q ≠ resolvedPath w url p ++ str ".part" →
        ((download_one w url p fs).fs).lookup q = fs.lookup q)
    ∧ (((download_one w url p fs).fs).lookup (resolvedPath w url p)
          = fs.lookup (resolvedPath w url p)
        ∨ ((download_one w url p fs).fs).lookup (resolvedPath w url p)
          = some (.file (.bytes (fullBody w url))))
    ∧ ((download_one w url p fs).ok = false →
        ((download_one w url p fs).fs).lookup (resolvedPath w url p)
          = fs.lookup (resolvedPath w url p)) := by
  by_cases hs : skipCheck fs p
  · rw [download_one_skip w url p fs hs]
    exact ⟨fun q _ _ => rfl, Or.inl rfl, fun _ => rfl⟩
  · rw [download_one_attempt w url p fs (by simpa using hs)]
    unfold attemptDownload
    cases hnet : w.net url with
    | fail cause =>
      exact ⟨fun q _ _ => rfl, Or.inl rfl, fun _ => rfl⟩
    | resp r =>
      rw [resolvedPath_resp w url p r hnet]
      by_cases hst : 400 ≤ r.status ∧ r.status < 600
      · simp only [hst, if_true]
        exact ⟨fun q _ _ => rfl, Or.inl rfl, fun _ => rfl⟩
      · simp only [hst, if_false]
        by_cases hwl : (writeLoop (resolveExt r p ++ str ".part")
            (fs.set (resolveExt r p ++ str ".part") (.file (.bytes []))) []
            r.chunks (w.diskFailAfter url)).2
        · simp only [hwl, if_true]
          have hcontent := writeLoop_ok_content (resolveExt r p ++ str ".part")
            r.chunks (w.diskFailAfter url)
            (fs.set (resolveExt r p ++ str ".part") (.file (.bytes []))) []
            (lookup_set_self fs _ _) hwl
          refine ⟨?_, ?_, ?_⟩
          · intro q hq1 hq2
            rw [rename_lookup_ne _ _ _ _ hq2 hq1,
                writeLoop_lookup_ne _ _ hq2, lookup_set_ne _ _ _ _ hq2]
          · right
            rw [rename_lookup_dst _ _ _ _ hcontent]
            simp [fullBody, hnet]
          · intro h
            exact absurd h (by simp)
        · rw [if_neg hwl]
          have hne : resolveExt r p ≠ resolveExt r p ++ str ".part" :=
            ne_append_part (resolveExt r p)
          refine ⟨?_, ?_, ?_⟩
          · intro q hq1 hq2
            rw [writeLoop_lookup_ne _ _ hq2, lookup_set_ne _ _ _ _ hq2]
          · left
            rw [writeLoop_lookup_ne _ _ hne, lookup_set_ne _ _ _ _ hne]
          · intro _
            rw [writeLoop_lookup_ne _ _ hne, lookup_set_ne _ _ _ _ hne]

theorem batchResults_length (w : World) :
    ∀ (jobs : List (Str × Str)) (fs : FS),
      (batchResults w jobs fs).length = jobs.length := by
  intro jobs
  induction jobs with
  | nil => intro fs; rfl
  | cons j js ih =>
    intro fs
    obtain ⟨u, p⟩ := j
    simp [batchResults, ih]

theorem runBatch_components (w : World) :
    ∀ (jobs : List (Str × Str)) (fs : FS),
      (runBatch w jobs fs).msgs = (batchResults w jobs fs).map DLResult.msg
      ∧ (runBatch w jobs fs).errors
          = (batchResults w jobs fs).countP (fun r => (str "ERROR").isPrefixOf r.msg)
      ∧ (runBatch w jobs fs).netCalls
          = (batchResults w jobs fs).countP (fun r => r.netCalled)
      ∧ (runBatch w jobs fs).downloaded
          = (batchResults w jobs fs).countP
              (fun r => !(str "ERROR").isPrefixOf r.msg && r.ok) := by
  intro jobs
  induction jobs with
  | nil => intro fs; exact ⟨rfl, rfl, rfl, rfl⟩
  | cons j js ih =>
    intro fs
    obtain ⟨u, p⟩ := j
    obtain ⟨h1, h2, h3, h4⟩ := ih (download_one w u p fs).fs
    refine ⟨?_, ?_, ?_, ?_⟩
    · simp [runBatch, batchResults, h1]
    · simp only [runBatch, batchResults, h2, List.countP_cons]
      by_cases he : (str "ERROR").isPrefixOf (download_one w u p fs).msg
      · simp [he, Nat.add_comm]
      · simp [he]
    · simp only [runBatch, batchResults, h3, List.countP_cons]
      by_cases hn : (download_one w u p fs).netCalled
      · simp [hn, Nat.add_comm]
      · simp [hn]
    · simp only [runBatch, batchResults, h4, List.countP_cons]
      by_cases he : (str "ERROR").isPrefixOf (download_one w u p fs).msg
      · simp [he]
      · by_cases ho : (download_one w u p fs).ok
        · simp [he, ho, Nat.add_comm]
        · simp [he, ho]

theorem runBatch_append (w : World) (a b : List (Str × Str)) :
    ∀ fs : FS,
      (runBatch w (a ++ b) fs).fs = (runBatch w b (runBatch w a fs).fs).fs
      ∧ (runBatch w (a ++ b) fs).msgs
          = (runBatch w a fs).msgs ++ (runBatch w b (runBatch w a fs).fs).msgs
      ∧ (runBatch w (a ++ b) fs).downloaded
          = (runBatch w a fs).downloaded + (runBatch w b (runBatch w a fs).fs).downloaded
      ∧ (runBatch w (a ++ b) fs).errors
          = (runBatch w a fs).errors + (runBatch w b (runBatch w a fs).fs).errors
      ∧ (runBatch w (a ++ b) fs).netCalls
          = (runBatch w a fs).netCalls + (runBatch w b (runBatch w a fs).fs).netCalls := by
  induction a with
  | nil =>
    intro fs
    refine ⟨rfl, rfl, ?_, ?_, ?_⟩ <;> simp [runBatch]
  | cons j js ih =>
    intro fs
    obtain ⟨u, p⟩ := j
    obtain ⟨h1, h2, h3, h4, h5⟩ := ih (download_one w u p fs).fs
    refine ⟨?_, ?_, ?_, ?_, ?_⟩
    · simpa [runBatch] using h1
    · simp [runBatch, h2]
    · simp [runBatch, h3, Nat.add_assoc]
    · simp [runBatch, h4, Nat.add_assoc]
    · simp [runBatch, h5, Nat.add_assoc]

theorem batchResults_get (w : World) :
    ∀ (jobs : List (Str × Str)) (fs : FS) (i : Nat) (h : i < jobs.length)
      (h2 : i < (batchResults w jobs fs).length),
      ∃ fsi, (batchResults w jobs fs).get ⟨i, h2⟩
        = download_one w (jobs.get ⟨i, h⟩).1 (jobs.get ⟨i, h⟩).2 fsi := by
  intro jobs
  induction jobs with
  | nil =>
    intro fs i h h2
    exact absurd h (by simp)
  | cons j js ih =>
    intro fs i h h2
    obtain ⟨u, p⟩ := j
    cases i with
    | zero => exact ⟨fs, rfl⟩
    | succ i =>
      have h' : i < js.length := by simpa using h
      have h2' : i < (batchResults w js (download_one w u p fs).fs).length := by
        simpa [batchResults] using h2
      obtain ⟨fsi, hfsi⟩ := ih (download_one w u p fs).fs i h' h2'
      exact ⟨fsi, hfsi⟩

theorem runBatch_all_skip (w : World) :
    ∀ (jobs : List (Str × Str)) (fs : FS),
      (∀ j ∈ jobs, skipCheck fs j.2 = true) →
      runBatch w jobs fs
        = ⟨fs, jobs.map (fun j => str "SKIP (exists) " ++ j.2), 0, 0, 0⟩ := by
  intro jobs
  induction jobs with
  | nil => intro fs _; rfl
  | cons j js ih =>
    intro fs hall
    obtain ⟨u, p⟩ := j
    have hskip : skipCheck fs p = true := hall (u, p) (by simp)
    have hrest : runBatch w js fs
        = ⟨fs, js.map (fun j => str "SKIP (exists) " ++ j.2), 0, 0, 0⟩ :=
      ih fs (fun x hx => hall x (by simp [hx]))
    simp [runBatch, download_one_skip w u p fs hskip, hrest, skip_msg_not_error]

theorem fileEntriesUnder_mem (fs : FS) (dir p : Str) (d : FileData) :
    (p, d) ∈ fileEntriesUnder fs dir
      ↔ (p, Entry.file d) ∈ fs ∧ underDir dir p = true := by
  unfold fileEntriesUnder
  rw [List.mem_filterMap]
  constructor
  · rintro ⟨⟨k, e⟩, hmem, hf⟩
    cases e with
    | file dd =>
      by_cases hu : underDir dir k
      · simp only [hu, if_true] at hf
        obtain ⟨hk, hd⟩ : k = p ∧ dd = d := by simpa using hf
        subst hk; subst hd
        exact ⟨hmem, hu⟩
      · simp [hu] at hf
    | other n => simp at hf
  · rintro ⟨hmem, hu⟩
    exact ⟨(p, .file d), hmem, by simp [hu]⟩

theorem mem_zipEntries (fs : FS) (p : Str) (d : FileData) :
    (p, d) ∈ zipEntries fs
      ↔ (p, Entry.file d) ∈ fs
        ∧ (underDir OUT_UNCOOKED p = true ∨ underDir OUT_COOKED p = true) := by
  unfold zipEntries
  rw [List.mem_append, fileEntriesUnder_mem, fileEntriesUnder_mem]
  constructor
  · rintro (⟨h1, h2⟩ | ⟨h1, h2⟩)
    · exact ⟨h1, Or.inl h2⟩
    · exact ⟨h1, Or.inr h2⟩
  · rintro ⟨h1, h2 | h2⟩
    · exact Or.inl ⟨h1, h2⟩
    · exact Or.inr ⟨h1, h2⟩

theorem underDir_ne_zip (p : Str)
    (h : underDir OUT_UNCOOKED p = true ∨ underDir OUT_COOKED p = true) :
    p ≠ ZIP_OUT := by
  rintro rfl
  rcases h with h | h <;> revert h <;> decide

theorem mem_zipBase (fs : FS) (x : Str × Entry) (h : x.1 ≠ ZIP_OUT) :
    x ∈ zipBase fs ↔ x ∈ fs := by
  unfold zipBase
  by_cases hs : (fs.lookup ZIP_OUT).isSome
  · simp [hs, mem_erase_iff, h]
  · simp [hs]

theorem zipBase_lookup_none (fs : FS) : (zipBase fs).lookup ZIP_OUT = none := by
  unfold zipBase
  by_cases h : (fs.lookup ZIP_OUT).isSome
  · simp [h, lookup_erase_self]
  · simpa [h] using Option.not_isSome_iff_eq_none.mp (by simpa using h)

theorem zipBase_set_zip (fs : FS) (e : Entry) :
    zipBase (fs.set ZIP_OUT e) = zipBase fs := by
  unfold zipBase
  rw [lookup_set_self]
  by_cases h : (fs.lookup ZIP_OUT).isSome
  · simp [h, erase_set_self]
  · have hn : fs.lookup ZIP_OUT = none := Option.not_isSome_iff_eq_none.mp (by simpa using h)
    simp [h, erase_set_self, erase_of_lookup_none fs ZIP_OUT hn]

theorem build_zip_set_zip (fs : FS) (e : Entry) :
    build_zip (fs.set ZIP_OUT e) = build_zip fs := by
  unfold build_zip
  rw [zipBase_set_zip]

theorem zipBase_build_zip (fs : FS) : zipBase (build_zip fs) = zipBase fs := by
  unfold build_zip
  rw [zipBase_set_zip]
  unfold zipBase
  by_cases h : (fs.lookup ZIP_OUT).isSome
  · simp [h, erase_erase]
  · have hn : fs.lookup ZIP_OUT = none := Option.not_isSome_iff_eq_none.mp (by simpa using h)
    simp [h, erase_of_lookup_none fs ZIP_OUT hn]

theorem build_zip_idem (fs : FS) : build_zip (build_zip fs) = build_zip fs := by
  conv_lhs => rw [build_zip]
  rw [zipBase_build_zip]
  rfl

theorem splitOnChar_ne_nil (c : Char) : ∀ s : Str, splitOnChar c s ≠ [] := by
  intro s
  induction s with
  | nil => simp [splitOnChar]
  | cons a rest ih =>
    unfold splitOnChar
    by_cases h : a = c
    · simp [h]
    · simp only [h, if_false]
      cases hr : splitOnChar c rest with
      | nil => simp
      | cons g gs => simp

theorem contains_iff_two_le (c : Char) :
    ∀ s : Str, s.contains c = true ↔ 2 ≤ (splitOnChar c s).length := by
  intro s
  induction s with
  | nil => simp [splitOnChar, List.contains]
  | cons a rest ih =>
    by_cases h : a = c
    · subst h
      have hlen : 1 ≤ (splitOnChar a rest).length :=
        List.length_pos.mpr (splitOnChar_ne_nil a rest)
      simp [splitOnChar, List.contains]
      omega
    · cases hr : splitOnChar c rest with
      | nil => exact absurd hr (splitOnChar_ne_nil c rest)
      | cons g gs =>
        have hne : (c == a) = false := beq_eq_false_iff_ne.mpr (Ne.symm h)
        simp only [splitOnChar, h, if_false, hr, List.contains_cons, hne,
          Bool.false_or, List.length_cons]
        rw [ih, hr]
        simp

theorem lookup_ct_table (c : Str) :
    (CONTENT_TYPE_EXT.lookup c).getD []
      = if c = str "image/jpeg" then str ".jpg"
        else if c = str "image/jpg" then str ".jpg"
        else if c = str "image/png" then str ".png"
        else if c = str "image/webp" then str ".webp"
        else if c = str "image/gif" then str ".gif"
        else if c = str "image/tiff" then str ".tif"
        else if c = str "image/bmp" then str ".bmp"
        else [] := by
  by_cases h1 : c = str "image/jpeg"
  · subst h1; decide
  by_cases h2 : c = str "image/jpg"
  · subst h2; decide
  by_cases h3 : c = str "image/png"
  · subst h3; decide
  by_cases h4 : c = str "image/webp"
  · subst h4; decide
  by_cases h5 : c = str "image/gif"
  · subst h5; decide
  by_cases h6 : c = str "image/tiff"
  · subst h6; decide
  by_cases h7 : c = str "image/bmp"
  · subst h7; decide
  rw [if_neg h1, if_neg h2, if_neg h3, if_neg h4, if_neg h5, if_neg h6, if_neg h7]
  simp only [CONTENT_TYPE_EXT, List.lookup,
    beq_eq_false_iff_ne.mpr h1, beq_eq_false_iff_ne.mpr h2,
    beq_eq_false_iff_ne.mpr h3, beq_eq_false_iff_ne.mpr h4,
    beq_eq_false_iff_ne.mpr h5, beq_eq_false_iff_ne.mpr h6,
    beq_eq_false_iff_ne.mpr h7]
  rfl

theorem orExt_eq_claim (finalUrl ct : Str) :
    (if infer_ext_from_url finalUrl ≠ [] then infer_ext_from_url finalUrl
     else infer_ext_from_content_type ct) = claimPreferredExt finalUrl ct := by
  unfold infer_ext_from_url claimPreferredExt infer_ext_from_content_type
  simp only []
  rw [lookup_ct_table]
  by_cases hc : (baseName (urlparsePath finalUrl)).contains '.'
  · have h2 : 2 ≤ (splitOnChar '.' (baseName (urlparsePath finalUrl))).length :=
      (contains_iff_two_le '.' (baseName (urlparsePath finalUrl))).mp hc
    rw [if_pos hc, if_pos h2]
    by_cases hw : ('.' :: strLower ((splitOnChar '.' (baseName (urlparsePath finalUrl))).getLastD []))
        ∈ [str ".jpg", str ".jpeg", str ".png", str ".webp",
           str ".gif", str ".tif", str ".tiff", str ".bmp"]
    · rw [if_pos hw, if_pos hw]
      have hne : (if ('.' :: strLower ((splitOnChar '.' (baseName (urlparsePath finalUrl))).getLastD []))
          = str ".jpeg" then str ".jpg"
          else '.' :: strLower ((splitOnChar '.' (baseName (urlparsePath finalUrl))).getLastD [])) ≠ [] := by
        split
        · simp [str]
        · simp
      rw [if_pos hne]
    · rw [if_neg hw, if_neg hw]
      simp
  · have h2 : ¬ 2 ≤ (splitOnChar '.' (baseName (urlparsePath finalUrl))).length :=
      fun h => hc ((contains_iff_two_le '.' (baseName (urlparsePath finalUrl))).mpr h)
    rw [if_neg hc, if_neg h2]
    have hnil : ([] : Str) ∉ [str ".jpg", str ".jpeg", str ".png", str ".webp",
        str ".gif", str ".tif", str ".tiff", str ".bmp"] := by decide
    rw [if_neg hnil]
    simp

theorem resolveExt_eq_claim (r : Response) (p : Str) (h : pySuffix p = []) :
    resolveExt r p = p ++ claimPreferredExt r.finalUrl r.contentType := by
  unfold resolveExt
  rw [if_pos h]
  simp only []
  rw [orExt_eq_claim]
  by_cases hE : claimPreferredExt r.finalUrl r.contentType = []
  · simp [hE]
  · simp [hE]

theorem resolveExt_with_ext (r : Response) (p : Str) (h : pySuffix p ≠ []) :
    resolveExt r p = p := by
  unfold resolveExt
  rw [if_neg h]

theorem download_one_ok_finalPath (w : World) (url p : Str) (fs : FS)
    (hok : (download_one w url p fs).ok = true) :
    (download_one w url p fs).finalPath = some (resolvedPath w url p) := by
  by_cases hs : skipCheck fs p
  · rw [download_one_skip w url p fs hs] at hok ⊢
    exact absurd hok (by simp)
  · rw [download_one_attempt w url p fs (by simpa using hs)] at hok ⊢
    unfold attemptDownload at hok ⊢
    cases hnet : w.net url with
    | fail cause =>
      rw [hnet] at hok
      simp at hok
    | resp r =>
      rw [hnet] at hok
      rw [resolvedPath_resp w url p r hnet]
      simp only [] at hok ⊢
      by_cases hst : 400 ≤ r.status ∧ r.status < 600
      · rw [if_pos hst] at hok
        exact absurd hok (by simp)
      · rw [if_neg hst] at hok ⊢
        by_cases hwl : (writeLoop (resolveExt r p ++ str ".part")
            (fs.set (resolveExt r p ++ str ".part") (.file (.bytes []))) []
            r.chunks (w.diskFailAfter url)).2
        · simp only [hwl, if_true]
        · rw [if_neg hwl] at hok
          exact absurd hok (by simp)

theorem batchResults_mem (w : World) :
    ∀ (jobs : List (Str × Str)) (fs : FS) (x : DLResult),
      x ∈ batchResults w jobs fs →
      ∃ u p fsi, x = download_one w u p fsi := by
  intro jobs
  induction jobs with
  | nil =>
    intro fs x hx
    exact absurd hx (by simp [batchResults])
  | cons j js ih =>
    intro fs x hx
    obtain ⟨u, p⟩ := j
    rcases (by simpa [batchResults] using hx :
        x = download_one w u p fs ∨ x ∈ batchResults w js (download_one w u p fs).fs) with
      h | h
    · exact ⟨u, p, fs, h⟩
    · exact ih _ x h

/-! ## The claims -/

/-- C2: every fetch writes the body only to the `.part` sibling of the
final path; the final path itself either keeps its previous content or
holds the complete body, and when the fetch does not succeed (in
particular on a mid-stream write failure) the final path is exactly as it
was — absent if it was absent, never partially written. -/
theorem claim_C2 (w : World) (url p : Str) (fs : FS) :
    (∀ q, q ≠ resolvedPath w url p → q ≠ resolvedPath w url p ++ str ".part" →
        ((download_one w url p fs).fs).lookup q = fs.lookup q)
    ∧ (((download_one w url p fs).fs).lookup (resolvedPath w url p)
          = fs.lookup (resolvedPath w url p)
        ∨ ((download_one w url p fs).fs).lookup (resolvedPath w url p)
          = some (.file (.bytes (fullBody w url))))
    ∧ ((download_one w url p fs).ok = false →
        ((download_one w url p fs).fs).lookup (resolvedPath w url p)
          = fs.lookup (resolvedPath w url p)) :=
  download_one_fs_spec w url p fs

/-- Witness for C2: in the disk-failing world the write stops after one
chunk, and nothing appears at the final destination path. -/
theorem claim_C2_witness :
    ((download_one witFailWorld (str "http://e/img") (str "uncooked/shape1") []).fs).lookup
        (resolvedPath witFailWorld (str "http://e/img") (str "uncooked/shape1")) = none := by
  have h := (claim_C2 witFailWorld (str "http://e/img") (str "uncooked/shape1") []).2.2
    (by rfl)
  exact h

/-- C5: for an extensionless destination and a delivered response, the
final path is the manifest path extended by the spec's preferred
extension: the final URL's whitelisted path suffix (case-insensitive,
`.jpeg` normalised to `.jpg`) if any, else the Content-Type mapping, else
nothing. -/
theorem claim_C5 (w : World) (url p : Str) (fs : FS) (r : Response)
    (h1 : pySuffix p = []) (h2 : w.net url = .resp r) :
    resolvedPath w url p = p ++ claimPreferredExt r.finalUrl r.contentType
    ∧ ((download_one w url p fs).ok = true →
        (download_one w url p fs).finalPath
          = some (p ++ claimPreferredExt r.finalUrl r.contentType)) := by
  have hrp : resolvedPath w url p = p ++ claimPreferredExt r.finalUrl r.contentType := by
    rw [resolvedPath_resp w url p r h2]
    exact resolveExt_eq_claim r p h1
  exact ⟨hrp, fun hok => by rw [download_one_ok_finalPath w url p fs hok, hrp]⟩

/-- Witness for C5: an extensionless path with a PNG Content-Type ends in
`.png`. -/
theorem claim_C5_witness :
    resolvedPath witWorld (str "http://e/img") (str "uncooked/shape1")
      = str "uncooked/shape1.png"
    ∧ (download_one witWorld (str "http://e/img") (str "uncooked/shape1") []).finalPath
      = some (str "uncooked/shape1.png") := by
  obtain ⟨h1, h2⟩ := claim_C5 witWorld (str "http://e/img") (str "uncooked/shape1") []
    ⟨str "http://e/img", 200, str "image/png", [[7], [8]]⟩ (by decide) (by rfl)
  refine ⟨?_, ?_⟩
  · rw [h1]; decide
  · rw [h2 (by rfl)]; decide

/-- C6: when the manifest destination already has an extension, inference
never changes the path: the resolved path, and the path a successful
download lands on, are exactly the manifest path. -/
theorem claim_C6 (w : World) (url p : Str) (fs : FS) (h : pySuffix p ≠ []) :
    resolvedPath w url p = p
    ∧ ((download_one w url p fs).ok = true →
        (download_one w url p fs).finalPath = some p) := by
  have hrp : resolvedPath w url p = p := by
    unfold resolvedPath
    cases hnet : w.net url with
    | fail cause => rfl
    | resp r => exact resolveExt_with_ext r p h
  exact ⟨hrp, fun hok => by rw [download_one_ok_finalPath w url p fs hok, hrp]⟩

/-- Witness for C6: a `.jpg` destination is downloaded to exactly that
path. -/
theorem claim_C6_witness :
    resolvedPath witWorld (str "http://e/b.jpg") (str "uncooked/b.jpg")
      = str "uncooked/b.jpg"
    ∧ (download_one witWorld (str "http://e/b.jpg") (str "uncooked/b.jpg") []).finalPath
      = some (str "uncooked/b.jpg") := by
  obtain ⟨h1, h2⟩ := claim_C6 witWorld (str "http://e/b.jpg") (str "uncooked/b.jpg") []
    (by decide)
  exact ⟨h1, h2 (by rfl)⟩

/-- C7: a destination that exists with non-zero size is skipped — the
fetch returns `downloaded = false` with the skip message, makes no
request and leaves the filesystem untouched; a zero-size destination is
not skipped and the download is attempted. -/
theorem claim_C7 (w : World) (url p : Str) (fs : FS) :
    (∀ e, fs.lookup p = some e → 0 < e.size →
        download_one w url p fs
          = ⟨false, str "SKIP (exists) " ++ p, fs, false, none⟩)
    ∧ (∀ e, fs.lookup p = some e → e.size = 0 →
        (download_one w url p fs).netCalled = true) := by
  constructor
  · intro e he hsz
    exact download_one_skip w url p fs ((skipCheck_iff fs p).mpr ⟨e, he, hsz⟩)
  · intro e he hsz
    rw [download_one_netCalled]
    have hsc : skipCheck fs p = false := by
      unfold skipCheck
      rw [he]
      simp [hsz]
    rw [hsc]
    rfl

/-- Witness for C7: a one-byte file is skipped untouched; a zero-byte file
triggers a request. -/
theorem claim_C7_witness :
    download_one witWorld (str "http://e/b.jpg") (str "uncooked/b.jpg")
        [(str "uncooked/b.jpg", .file (.bytes [9]))]
      = ⟨false, str "SKIP (exists) " ++ str "uncooked/b.jpg",
         [(str "uncooked/b.jpg", .file (.bytes [9]))], false, none⟩
    ∧ (download_one witWorld (str "http://e/b.jpg") (str "uncooked/b.jpg")
        [(str "uncooked/b.jpg", .file (.bytes []))]).netCalled = true := by
  constructor
  · exact (claim_C7 witWorld (str "http://e/b.jpg") (str "uncooked/b.jpg")
      [(str "uncooked/b.jpg", .file (.bytes [9]))]).1 (.file (.bytes [9])) rfl (by decide)
  · exact (claim_C7 witWorld (str "http://e/b.jpg") (str "uncooked/b.jpg")
      [(str "uncooked/b.jpg", .file (.bytes []))]).2 (.file (.bytes [])) rfl (by decide)

/-- C10: for an extensionless manifest destination, the skip check reads
only the filesystem state at that extensionless path — if nothing
non-empty sits exactly there, the download is attempted, whatever exists
at any inferred-extension path; and two filesystems agreeing at the
manifest path agree on whether a request is issued. -/
theorem claim_C10 (w : World) (url p : Str) (fs : FS) (_h1 : pySuffix p = []) :
    ((∀ e, fs.lookup p = some e → e.size = 0) →
        (download_one w url p fs).netCalled = true)
    ∧ (∀ fs2 : FS, fs2.lookup p = fs.lookup p →
        (download_one w url p fs2).netCalled = (download_one w url p fs).netCalled) := by
  constructor
  · intro hall
    rw [download_one_netCalled]
    have hsc : skipCheck fs p = false := by
      unfold skipCheck
      cases hl : fs.lookup p with
      | none => rfl
      | some e => simp [hall e hl]
    rw [hsc]
    rfl
  · intro fs2 heq
    rw [download_one_netCalled, download_one_netCalled]
    unfold skipCheck
    rw [heq]

/-- Witness for C10: a file saved earlier at the inferred path
`uncooked/shape1.png` does not stop the re-download of the extensionless
destination `uncooked/shape1`. -/
theorem claim_C10_witness :
    (download_one witWorld (str "http://e/img") (str "uncooked/shape1")
      [(str "uncooked/shape1.png", .file (.bytes [7, 8]))]).netCalled = true := by
  refine (claim_C10 witWorld (str "http://e/img") (str "uncooked/shape1")
    [(str "uncooked/shape1.png", .file (.bytes [7, 8]))] (by decide)).1 ?_
  intro e he
  have : FS.lookup [(str "uncooked/shape1.png", Entry.file (.bytes [7, 8]))]
      (str "uncooked/shape1") = none := by rfl
  rw [this] at he
  exact absurd he (by simp)

/-- C3: failures are returned as `ERROR <url> -> <dest>: <cause>` messages
rather than raised; the batch runs every job in order (one message per
job, and a split batch is the concatenation of its parts, whatever
failed); the error counter counts exactly the failing jobs; and whenever
`main` parses a manifest it reaches the archiver. -/
theorem claim_C3 (w : World) (jobs : List (Str × Str)) (fs : FS) :
    (runBatch w jobs fs).msgs = (batchResults w jobs fs).map DLResult.msg
    ∧ (batchResults w jobs fs).length = jobs.length
    ∧ (runBatch w jobs fs).errors
        = (batchResults w jobs fs).countP (fun r => r.isError)
    ∧ (∀ i (h1 : i < jobs.length) (h2 : i < (batchResults w jobs fs).length),
        ((batchResults w jobs fs).get ⟨i, h2⟩).isError = true →
        ∃ d c, ((batchResults w jobs fs).get ⟨i, h2⟩).msg
          = errMsg (jobs.get ⟨i, h1⟩).1 d c)
    ∧ (∀ a b : List (Str × Str),
        (runBatch w (a ++ b) fs).msgs
          = (runBatch w a fs).msgs ++ (runBatch w b (runBatch w a fs).fs).msgs
        ∧ (runBatch w (a ++ b) fs).errors
          = (runBatch w a fs).errors + (runBatch w b (runBatch w a fs).fs).errors)
    ∧ (∀ hdr rows out, mainRun w (some (hdr, rows)) fs = some out →
        out.archived = true) := by
  obtain ⟨hm, he, _, _⟩ := runBatch_components w jobs fs
  refine ⟨hm, batchResults_length w jobs fs, ?_, ?_, ?_, ?_⟩
  · rw [he]
    refine List.countP_congr ?_
    intro x hx
    obtain ⟨u, p, fsi, rfl⟩ := batchResults_mem w jobs fs x hx
    rw [(download_one_msg_shape w u p fsi).1]
  · intro i h1 h2 herr
    obtain ⟨fsi, hget⟩ := batchResults_get w jobs fs i h1 h2
    rw [hget] at herr ⊢
    exact (download_one_msg_shape w (jobs.get ⟨i, h1⟩).1 (jobs.get ⟨i, h1⟩).2 fsi).2
      (by rw [(download_one_msg_shape w (jobs.get ⟨i, h1⟩).1 (jobs.get ⟨i, h1⟩).2 fsi).1]
          exact herr)
  · intro a b
    obtain ⟨_, h2', _, h4', _⟩ := runBatch_append w a b fs
    exact ⟨h2', h4'⟩
  · intro hdr rows out h
    unfold mainRun at h
    simp only [] at h
    cases hman : readManifest hdr rows with
    | none =>
      rw [hman] at h
      exact absurd h (by simp)
    | some js =>
      rw [hman] at h
      simp only [] at h
      obtain rfl := Option.some.inj h
      rfl

/-- Witness for C3: in the three-job batch with a 404 in the middle, all
three jobs report, and the error count is exactly one. -/
theorem claim_C3_witness :
    (runBatch witWorld jobs3 []).msgs.length = 3
    ∧ (runBatch witWorld jobs3 []).errors = 1 := by
  obtain ⟨hm, hlen, herr, _⟩ := claim_C3 witWorld jobs3 []
  constructor
  · rw [hm, List.length_map, hlen]
    rfl
  · rw [herr]
    rfl

/-- C4: the exit code is 2 exactly when the manifest is missing (no job
attempted, no archive); otherwise, whenever `main` runs to completion, the
archive was built and the exit code is 1 when a per-job error occurred and
0 when none did. -/
theorem claim_C4 (w : World) (fs : FS) :
    mainRun w none fs = some ⟨2, fs, [], 0, 0, 0, false⟩
    ∧ (∀ hdr rows out, mainRun w (some (hdr, rows)) fs = some out →
        out.archived = true
        ∧ out.exitCode = (if out.errors = 0 then 0 else 1)
        ∧ out.exitCode ≠ 2) := by
  refine ⟨rfl, ?_⟩
  intro hdr rows out h
  unfold mainRun at h
  simp only [] at h
  cases hman : readManifest hdr rows with
  | none =>
    rw [hman] at h
    exact absurd h (by simp)
  | some js =>
    rw [hman] at h
    simp only [] at h
    obtain rfl := Option.some.inj h
    refine ⟨rfl, rfl, ?_⟩
    by_cases hz : (runBatch w js fs).errors = 0
    · simp [hz]
    · simp [hz]

/-- Witness for C4: a run over a one-row manifest whose URL yields 404
exits with code 1 and still archives. -/
theorem claim_C4_witness :
    ∃ out,
      mainRun witWorld
          (some ([str "url", str "relative_output_path"],
                 [[str "http://e/404", str "uncooked/x.png"]])) [] = some out
      ∧ out.archived = true ∧ out.exitCode = 1 := by
  cases hm : mainRun witWorld
      (some ([str "url", str "relative_output_path"],
             [[str "http://e/404", str "uncooked/x.png"]])) [] with
  | none =>
    have hsome : (mainRun witWorld
        (some ([str "url", str "relative_output_path"],
               [[str "http://e/404", str "uncooked/x.png"]])) []).isSome = true := rfl
    rw [hm] at hsome
    exact absurd hsome (by simp)
  | some out =>
    obtain ⟨ha, hcode, _⟩ := (claim_C4 witWorld []).2 _ _ out hm
    refine ⟨out, rfl, ha, ?_⟩
    rw [hcode]
    have herr : out.errors = 1 := by
      have : (mainRun witWorld
          (some ([str "url", str "relative_output_path"],
                 [[str "http://e/404", str "uncooked/x.png"]])) []).map MainOut.errors
          = some 1 := rfl
      rw [hm] at this
      simpa using this
    rw [herr]
    rfl

/-- C9: the manifest reader yields one job per data row in row order; each
job is the row's `url` and `relative_output_path` fields, both trimmed,
the destination joined onto the fixed root. -/
theorem claim_C9 (hdr : List Str) :
    ∀ (rows : List (List Str)) (jobs : List (Str × Str)),
      readManifest hdr rows = some jobs →
      jobs.length = rows.length
      ∧ ∀ i (h1 : i < rows.length) (h2 : i < jobs.length),
          ∃ u r, colValue hdr (rows.get ⟨i, h1⟩) (str "url") = some u
            ∧ colValue hdr (rows.get ⟨i, h1⟩) (str "relative_output_path") = some r
            ∧ jobs.get ⟨i, h2⟩ = (strTrim u, rootJoin (strTrim r)) := by
  intro rows
  induction rows with
  | nil =>
    intro jobs h
    obtain rfl := Option.some.inj (h.symm.trans rfl).symm
    exact ⟨rfl, fun i h1 => absurd h1 (by simp)⟩
  | cons row rest ih =>
    intro jobs h
    unfold readManifest at h
    cases hu : colValue hdr row (str "url") with
    | none =>
      rw [hu] at h
      exact absurd h (by simp)
    | some u =>
      cases hr : colValue hdr row (str "relative_output_path") with
      | none =>
        rw [hu, hr] at h
        exact absurd h (by simp)
      | some r =>
        rw [hu, hr] at h
        cases hrest : readManifest hdr rest with
        | none =>
          rw [hrest] at h
          exact absurd h (by simp)
        | some js =>
          rw [hrest] at h
          obtain rfl := Option.some.inj h
          obtain ⟨hlen, hidx⟩ := ih js hrest
          refine ⟨by simp [hlen], ?_⟩
          intro i h1 h2
          cases i with
          | zero => exact ⟨u, r, hu, hr, rfl⟩
          | succ i =>
            have h1' : i < rest.length := by simpa using h1
            have h2' : i < js.length := by simpa using h2
            obtain ⟨u', r', a, b, c⟩ := hidx i h1' h2'
            exact ⟨u', r', a, b, c⟩

/-- Witness for C9: a one-row manifest with padded fields parses to the
trimmed pair. -/
theorem claim_C9_witness :
    ([(str "http://e/404", str "uncooked/x.png")] : List (Str × Str)).length
      = ([[str " http://e/404 ", str " uncooked/x.png "]] : List (List Str)).length := by
  have h := claim_C9 [str "url", str "relative_output_path"]
    [[str " http://e/404 ", str " uncooked/x.png "]]
    [(str "http://e/404", str "uncooked/x.png")] (by rfl)
  exact h.1

/-- C8: the freshly built archive holds exactly the regular files lying
under the two output directories, each under its root-relative path, with
deflate compression; non-file entries are not archived, and a pre-existing
archive at the output path has no influence (it is deleted first). -/
theorem claim_C8 (fs : FS) :
    (∃ es, (build_zip fs).lookup ZIP_OUT
        = some (.file (.archive (str "ZIP_DEFLATED") es))
      ∧ ∀ p d, ((p, d) ∈ es
          ↔ (p, Entry.file d) ∈ fs
            ∧ (underDir OUT_UNCOOKED p = true ∨ underDir OUT_COOKED p = true)))
    ∧ (∀ e, build_zip (fs.set ZIP_OUT e) = build_zip fs) := by
  constructor
  · refine ⟨zipEntries (zipBase fs), lookup_set_self _ _ _, ?_⟩
    intro p d
    rw [mem_zipEntries]
    constructor
    · rintro ⟨hm, hd⟩
      exact ⟨(mem_zipBase fs (p, .file d) (underDir_ne_zip p hd)).mp hm, hd⟩
    · rintro ⟨hm, hd⟩
      exact ⟨(mem_zipBase fs (p, .file d) (underDir_ne_zip p hd)).mpr hm, hd⟩
  · exact build_zip_set_zip fs

/-- Witness for C8: on the fixture tree, rebuilding over a stale archive
gives the same archive as building with none. -/
theorem claim_C8_witness :
    build_zip (fs8.set ZIP_OUT (.file (.bytes [0]))) = build_zip fs8 :=
  (claim_C8 fs8).2 (.file (.bytes [0]))

theorem runOnce_fs (w : World) (jobs : List (Str × Str)) (fs : FS) :
    (runOnce w jobs fs).fs = build_zip (runBatch w jobs fs).fs := rfl

theorem runOnce_msgs (w : World) (jobs : List (Str × Str)) (fs : FS) :
    (runOnce w jobs fs).msgs = (runBatch w jobs fs).msgs := rfl

theorem runOnce_netCalls (w : World) (jobs : List (Str × Str)) (fs : FS) :
    (runOnce w jobs fs).netCalls = (runBatch w jobs fs).netCalls := rfl

/-- C1 (counterexample): the claim fails as stated.  With one job whose
destination `uncooked/shape1` has no extension, the first run completes
successfully and saves `uncooked/shape1.png`, yet the second run makes a
network call and reports `OK`, not `skipped` — the skip check looks at the
extensionless manifest path, where nothing exists. -/
theorem claim_C1_counterexample :
    (runOnce witWorld jobsC1 (runOnce witWorld jobsC1 []).fs).netCalls = 1
    ∧ ((runOnce witWorld jobsC1 (runOnce witWorld jobsC1 []).fs).msgs.all
        (fun m => (str "SKIP").isPrefixOf m)) = false
    ∧ (runOnce witWorld jobsC1 []).errors = 0 := by
  exact ⟨rfl, rfl, rfl⟩

/-- C1 (amended): if after the first run every job's manifest destination
path itself exists on disk with non-zero size — which a completed run
guarantees when every destination path already carries its extension and
every body is non-empty, but not when an extension had to be inferred —
then the second run changes nothing on disk, reports every job as
skipped, and makes no network call. -/
theorem claim_C1 (w : World) (jobs : List (Str × Str)) (fs0 : FS)
    (H : ∀ j ∈ jobs, ∃ e,
        ((runOnce w jobs fs0).fs).lookup j.2 = some e ∧ 0 < e.size) :
    (runOnce w jobs (runOnce w jobs fs0).fs).fs = (runOnce w jobs fs0).fs
    ∧ (∀ m ∈ (runOnce w jobs (runOnce w jobs fs0).fs).msgs,
        (str "SKIP").isPrefixOf m = true)
    ∧ (runOnce w jobs (runOnce w jobs fs0).fs).netCalls = 0 := by
  have hskip : ∀ j ∈ jobs, skipCheck (runOnce w jobs fs0).fs j.2 = true := fun j hj =>
    (skipCheck_iff _ j.2).mpr (H j hj)
  have hbatch := runBatch_all_skip w jobs (runOnce w jobs fs0).fs hskip
  refine ⟨?_, ?_, ?_⟩
  · rw [runOnce_fs w jobs (runOnce w jobs fs0).fs, hbatch]
    rw [runOnce_fs w jobs fs0]
    exact build_zip_idem _
  · intro m hm
    rw [runOnce_msgs w jobs (runOnce w jobs fs0).fs, hbatch] at hm
    simp only [List.mem_map] at hm
    obtain ⟨j, _, rfl⟩ := hm
    exact skip_msg_starts_skip j.2
  · rw [runOnce_netCalls w jobs (runOnce w jobs fs0).fs, hbatch]

/-- Witness for C1 (amended): with the destination `uncooked/b.jpg`
already carrying its extension, the second run is silent on the network. -/
theorem claim_C1_witness :
    (runOnce witWorld jobsW (runOnce witWorld jobsW []).fs).netCalls = 0 := by
  refine (claim_C1 witWorld jobsW [] ?_).2.2
  intro j hj
  have hj' : j = (str "http://e/b.jpg", str "uncooked/b.jpg") := by
    simpa [jobsW] using hj
  subst hj'
  exact ⟨.file (.bytes [1]), rfl, by decide⟩
